import Mathlib

/-!
Verification of the MOA Accuracy Simulator core (`app.py`, `simulate_shots`).

The simulator draws `simulation_shots` shots; each shot consumes two unit
draws from the random source (Python's `random.uniform(a, b)` returns
`a + (b - a) * random()` with `random() ∈ [0, 1)`), computes a landing
point from a uniformly drawn radius and angle, classifies it against the
target radius, and accumulates a hit counter plus display lists for the
first `shots` draws.  We model the random source as a stream `ℕ → ℝ` of
unit draws; shot `i` consumes draws `2*i` (radius) and `2*i+1` (angle).
Real arithmetic stands in for Python floats (exact-real semantics).
-/

open Real Classical

/-- Python `math.radians`. -/
noncomputable def radians (x : ℝ) : ℝ := x * Real.pi / 180

/-- Python `random.uniform a b` driven by a unit draw `u ∈ [0,1)`:
`random.uniform(a, b)` returns `a + (b - a) * random()`. -/
noncomputable def uniform (a b u : ℝ) : ℝ := a + (b - a) * u

/-- The three scalar parameters of `simulate_shots`. -/
structure SimParams where
  distance : ℝ
  target_size : ℝ
  moa : ℝ

/-- `moa_radian = math.radians(moa / 60)` (app.py line 45). -/
noncomputable def moa_radian (p : SimParams) : ℝ := radians (p.moa / 60)

/-- `target_radius = target_size / 2` (app.py line 46). -/
noncomputable def target_radius (p : SimParams) : ℝ := p.target_size / 2

/-- The upper bound of the radius draw, `distance * math.sin(moa_radian / 2)`
(app.py line 56). -/
noncomputable def max_radius (p : SimParams) : ℝ := p.distance * Real.sin (moa_radian p / 2)

/-- `radius = random.uniform(0, distance * math.sin(moa_radian / 2))`
(app.py line 56), with `u` the unit draw consumed. -/
noncomputable def shot_radius (p : SimParams) (u : ℝ) : ℝ := uniform 0 (max_radius p) u

/-- `angle = random.uniform(0, 2 * math.pi)` (app.py line 57), with `u` the
unit draw consumed. -/
noncomputable def shot_angle (u : ℝ) : ℝ := uniform 0 (2 * Real.pi) u

/-- `x = radius * math.cos(angle)` (app.py line 58). -/
noncomputable def shot_x (p : SimParams) (u₁ u₂ : ℝ) : ℝ :=
  shot_radius p u₁ * Real.cos (shot_angle u₂)

/-- `y = radius * math.sin(angle)` (app.py line 59). -/
noncomputable def shot_y (p : SimParams) (u₁ u₂ : ℝ) : ℝ :=
  shot_radius p u₁ * Real.sin (shot_angle u₂)

/-- The hit test `(x**2 + y**2) ** 0.5 <= target_radius` (app.py line 60);
`(x²+y²) ** 0.5` is the principal square root of a nonnegative real. -/
def is_hit (p : SimParams) (x y : ℝ) : Prop :=
  Real.sqrt (x ^ 2 + y ^ 2) ≤ target_radius p

/-- The landing point of shot `i` under the draw stream `rng`. -/
noncomputable def shot_pt (p : SimParams) (rng : ℕ → ℝ) (i : ℕ) : ℝ × ℝ :=
  (shot_x p (rng (2 * i)) (rng (2 * i + 1)),
   shot_y p (rng (2 * i)) (rng (2 * i + 1)))

/-- The loop state of `simulate_shots`: the hit counter and the four display
lists `hits_x, hits_y, misses_x, misses_y` (app.py lines 49-53). -/
structure SimState where
  hits : ℕ
  hits_x : List ℝ
  hits_y : List ℝ
  misses_x : List ℝ
  misses_y : List ℝ

/-- One iteration of the sampling loop (app.py lines 55-67): shot `i`
draws its point, increments `hits` on a hit, and appends the point to the
hit or miss display lists while `i < cap` (the module constant `shots`). -/
noncomputable def sim_step (p : SimParams) (rng : ℕ → ℝ) (cap i : ℕ)
    (s : SimState) : SimState :=
  let x := shot_x p (rng (2 * i)) (rng (2 * i + 1))
  let y := shot_y p (rng (2 * i)) (rng (2 * i + 1))
  if Real.sqrt (x ^ 2 + y ^ 2) ≤ target_radius p then
    if i < cap then
      ⟨s.hits + 1, s.hits_x ++ [x], s.hits_y ++ [y], s.misses_x, s.misses_y⟩
    else
      ⟨s.hits + 1, s.hits_x, s.hits_y, s.misses_x, s.misses_y⟩
  else if i < cap then
    ⟨s.hits, s.hits_x, s.hits_y, s.misses_x ++ [x], s.misses_y ++ [y]⟩
  else s

/-- State after the first `n` iterations of the loop
`for i in range(simulation_shots)` (app.py line 55). -/
noncomputable def sim_loop (p : SimParams) (rng : ℕ → ℝ) (cap : ℕ) :
    ℕ → SimState
  | 0 => ⟨0, [], [], [], []⟩
  | n + 1 => sim_step p rng cap n (sim_loop p rng cap n)

/-- Module constant `simulation_shots = 10000` (app.py line 28). -/
def simulation_shots : ℕ := 10000

/-- Module constant `shots = 100` (app.py line 29): the display cap. -/
def shots : ℕ := 100

/-- The final loop state of `simulate_shots` for a run of `N` draws with
display cap `cap`; the source fixes `N = simulation_shots`, `cap = shots`. -/
noncomputable def simulate_shots (p : SimParams) (rng : ℕ → ℝ)
    (N cap : ℕ) : SimState :=
  sim_loop p rng cap N

/-- The reported hit probability `hits / simulation_shots` (app.py
line 105), for a run of `N` draws. -/
noncomputable def hitProbability (p : SimParams) (rng : ℕ → ℝ)
    (N cap : ℕ) : ℝ :=
  ((simulate_shots p rng N cap).hits : ℝ) / N

/-! ### Spec-side definitions (from the spec's words, for the refinement
claim about the sampling algorithm) -/

/-- Modelled from the spec: `halfAngleRadians = radians(dispersionMOA / 60) / 2`. -/
noncomputable def spec_halfAngleRadians (p : SimParams) : ℝ := radians (p.moa / 60) / 2

/-- Modelled from the spec: `maxRadiusMeters = distanceMeters * sin(halfAngleRadians)`. -/
noncomputable def spec_maxRadiusMeters (p : SimParams) : ℝ :=
  p.distance * Real.sin (spec_halfAngleRadians p)

/-- Modelled from the spec: draw `radius` uniformly in `[0, maxRadiusMeters]`,
`angle` uniformly in `[0, 2π)`, and land at `(radius·cos(angle), radius·sin(angle))`. -/
noncomputable def spec_shot (p : SimParams) (u₁ u₂ : ℝ) : ℝ × ℝ :=
  (uniform 0 (spec_maxRadiusMeters p) u₁ * Real.cos (uniform 0 (2 * Real.pi) u₂),
   uniform 0 (spec_maxRadiusMeters p) u₁ * Real.sin (uniform 0 (2 * Real.pi) u₂))

/-! ### Derived notions used to state the display-list and counting claims -/

/-- Boolean form of the hit test, for filtering and counting. -/
noncomputable def hitb (p : SimParams) (q : ℝ × ℝ) : Bool := decide (is_hit p q.1 q.2)

/-- The landing points of the first `k` draws of a run, in draw order. -/
noncomputable def first_pts (p : SimParams) (rng : ℕ → ℝ) (k : ℕ) : List (ℝ × ℝ) :=
  (List.range k).map (shot_pt p rng)

/-- The hit event of a single shot, as a set of unit radius draws `u₁`
in `[0, 1]` (the angle draw `u₂` is held fixed; the classification does
not depend on it).  Its Lebesgue volume is the per-shot hit probability. -/
def hit_event (p : SimParams) (u₂ : ℝ) : Set ℝ :=
  {u₁ : ℝ | u₁ ∈ Set.Icc (0:ℝ) 1 ∧ is_hit p (shot_x p u₁ u₂) (shot_y p u₁ u₂)}

/-! ### Basic lemmas -/

lemma uniform_zero_left (b u : ℝ) : uniform 0 b u = b * u := by
  simp [uniform]

lemma shot_radius_eq (p : SimParams) (u : ℝ) : shot_radius p u = max_radius p * u := by
  simp [shot_radius, uniform]

lemma sqrt_point (r θ : ℝ) :
    Real.sqrt ((r * Real.cos θ) ^ 2 + (r * Real.sin θ) ^ 2) = |r| := by
  have h : (r * Real.cos θ) ^ 2 + (r * Real.sin θ) ^ 2 = r ^ 2 := by
    have hcs := Real.sin_sq_add_cos_sq θ
    ring_nf
    nlinarith [hcs]
  rw [h, Real.sqrt_sq_eq_abs]

lemma is_hit_shot_iff (p : SimParams) (u₁ u₂ : ℝ) :
    is_hit p (shot_x p u₁ u₂) (shot_y p u₁ u₂) ↔ |shot_radius p u₁| ≤ target_radius p := by
  rw [is_hit, shot_x, shot_y, sqrt_point]

lemma hitb_iff (p : SimParams) (q : ℝ × ℝ) : hitb p q = true ↔ is_hit p q.1 q.2 := by
  simp [hitb]

lemma sim_step_eq (p : SimParams) (rng : ℕ → ℝ) (cap i : ℕ) (s : SimState) :
    sim_step p rng cap i s =
      if is_hit p (shot_pt p rng i).1 (shot_pt p rng i).2 then
        if i < cap then
          ⟨s.hits + 1, s.hits_x ++ [(shot_pt p rng i).1],
           s.hits_y ++ [(shot_pt p rng i).2], s.misses_x, s.misses_y⟩
        else ⟨s.hits + 1, s.hits_x, s.hits_y, s.misses_x, s.misses_y⟩
      else if i < cap then
        ⟨s.hits, s.hits_x, s.hits_y, s.misses_x ++ [(shot_pt p rng i).1],
         s.misses_y ++ [(shot_pt p rng i).2]⟩
      else s := rfl

lemma first_pts_succ (p : SimParams) (rng : ℕ → ℝ) (k : ℕ) :
    first_pts p rng (k + 1) = first_pts p rng k ++ [shot_pt p rng k] := by
  simp [first_pts, List.range_succ]

lemma length_filter_add_length_filter_not {α : Type} (P : α → Bool) (l : List α) :
    (l.filter P).length + (l.filter (fun a => ! P a)).length = l.length := by
  induction l with
  | nil => rfl
  | cons a l ih =>
    by_cases h : P a <;> simp [List.filter_cons, h, ← ih] <;> omega

lemma sim_loop_zero (p : SimParams) (rng : ℕ → ℝ) (cap : ℕ) :
    sim_loop p rng cap 0 = ⟨0, [], [], [], []⟩ := rfl

lemma sim_loop_succ (p : SimParams) (rng : ℕ → ℝ) (cap N : ℕ) :
    sim_loop p rng cap (N + 1) = sim_step p rng cap N (sim_loop p rng cap N) := rfl

/-- The loop invariant: after `N` iterations, `hits` counts the hits among
the first `N` landing points, and the display lists are exactly the first
`min N cap` landing points partitioned by the hit test, in draw order. -/
lemma sim_loop_spec (p : SimParams) (rng : ℕ → ℝ) (cap : ℕ) : ∀ N,
    (sim_loop p rng cap N).hits = (first_pts p rng N).countP (hitb p) ∧
    (sim_loop p rng cap N).hits_x
      = ((first_pts p rng (min N cap)).filter (hitb p)).map Prod.fst ∧
    (sim_loop p rng cap N).hits_y
      = ((first_pts p rng (min N cap)).filter (hitb p)).map Prod.snd ∧
    (sim_loop p rng cap N).misses_x
      = ((first_pts p rng (min N cap)).filter (fun q => ! hitb p q)).map Prod.fst ∧
    (sim_loop p rng cap N).misses_y
      = ((first_pts p rng (min N cap)).filter (fun q => ! hitb p q)).map Prod.snd := by
  intro N
  induction N with
  | zero => simp [sim_loop_zero, first_pts]
  | succ N ih =>
    obtain ⟨ih1, ih2, ih3, ih4, ih5⟩ := ih
    rw [sim_loop_succ, sim_step_eq]
    by_cases hhit : is_hit p (shot_pt p rng N).1 (shot_pt p rng N).2
    · have hb : hitb p (shot_pt p rng N) = true := (hitb_iff p _).mpr hhit
      rw [if_pos hhit]
      by_cases hcap : N < cap
      · have h1 : min (N + 1) cap = N + 1 := by omega
        have h2 : min N cap = N := by omega
        rw [if_pos hcap]
        refine ⟨?_, ?_, ?_, ?_, ?_⟩ <;>
          simp [first_pts_succ, List.countP_append, List.filter_append, hb,
            h1, h2, ih1, ih2, ih3, ih4, ih5]
      · have h1 : min (N + 1) cap = min N cap := by omega
        rw [if_neg hcap]
        refine ⟨?_, ?_, ?_, ?_, ?_⟩ <;>
          simp [first_pts_succ, List.countP_append, hb, h1, ih1, ih2, ih3, ih4, ih5]
    · have hb : hitb p (shot_pt p rng N) = false := by
        rw [Bool.eq_false_iff]
        intro hc
        exact hhit ((hitb_iff p _).mp hc)
      rw [if_neg hhit]
      by_cases hcap : N < cap
      · have h1 : min (N + 1) cap = N + 1 := by omega
        have h2 : min N cap = N := by omega
        rw [if_pos hcap]
        refine ⟨?_, ?_, ?_, ?_, ?_⟩ <;>
          simp [first_pts_succ, List.countP_append, List.filter_append, hb,
            h1, h2, ih1, ih2, ih3, ih4, ih5]
      · have h1 : min (N + 1) cap = min N cap := by omega
        rw [if_neg hcap]
        refine ⟨?_, ?_, ?_, ?_, ?_⟩ <;>
          simp [first_pts_succ, List.countP_append, hb, h1, ih1, ih2, ih3, ih4, ih5]

/-- `hits` never exceeds the number of draws. -/
lemma sim_loop_hits_le (p : SimParams) (rng : ℕ → ℝ) (cap N : ℕ) :
    (sim_loop p rng cap N).hits ≤ N := by
  have h := (sim_loop_spec p rng cap N).1
  rw [h]
  calc (first_pts p rng N).countP (hitb p) ≤ (first_pts p rng N).length :=
        List.countP_le_length _
    _ = N := by simp [first_pts]

/-- `hits` as a count over the draw indices. -/
lemma sim_loop_hits_countP (p : SimParams) (rng : ℕ → ℝ) (cap N : ℕ) :
    (sim_loop p rng cap N).hits
      = (List.range N).countP (fun i => hitb p (shot_pt p rng i)) := by
  rw [(sim_loop_spec p rng cap N).1, first_pts, List.countP_map]
  rfl

/-- Pointwise implication of the hit tests gives a pointwise bound on `hits`. -/
lemma sim_loop_hits_mono (p₁ p₂ : SimParams) (rng : ℕ → ℝ) (cap N : ℕ)
    (h : ∀ i, is_hit p₂ (shot_pt p₂ rng i).1 (shot_pt p₂ rng i).2 →
      is_hit p₁ (shot_pt p₁ rng i).1 (shot_pt p₁ rng i).2) :
    (sim_loop p₂ rng cap N).hits ≤ (sim_loop p₁ rng cap N).hits := by
  rw [sim_loop_hits_countP, sim_loop_hits_countP]
  refine List.countP_mono_left (fun i _ hi => ?_)
  exact (hitb_iff p₁ _).mpr (h i ((hitb_iff p₂ _).mp hi))

/-- Pointwise equivalence of the hit tests gives equal `hits`. -/
lemma sim_loop_hits_congr (p₁ p₂ : SimParams) (rng₁ rng₂ : ℕ → ℝ) (cap N : ℕ)
    (h : ∀ i, is_hit p₁ (shot_pt p₁ rng₁ i).1 (shot_pt p₁ rng₁ i).2 ↔
      is_hit p₂ (shot_pt p₂ rng₂ i).1 (shot_pt p₂ rng₂ i).2) :
    (sim_loop p₁ rng₁ cap N).hits = (sim_loop p₂ rng₂ cap N).hits := by
  rw [sim_loop_hits_countP, sim_loop_hits_countP]
  refine List.countP_congr (fun i _ => ?_)
  constructor
  · intro hi
    exact (hitb_iff p₂ _).mpr ((h i).mp ((hitb_iff p₁ _).mp hi))
  · intro hi
    exact (hitb_iff p₁ _).mpr ((h i).mpr ((hitb_iff p₂ _).mp hi))

/-- When every landing point is a hit, `hits = N`. -/
lemma sim_loop_hits_all (p : SimParams) (rng : ℕ → ℝ) (cap N : ℕ)
    (h : ∀ i, is_hit p (shot_pt p rng i).1 (shot_pt p rng i).2) :
    (sim_loop p rng cap N).hits = N := by
  rw [sim_loop_hits_countP]
  have hall : ∀ i ∈ List.range N, hitb p (shot_pt p rng i) = true :=
    fun i _ => (hitb_iff p (shot_pt p rng i)).mpr (h i)
  rw [List.countP_eq_length.mpr hall, List.length_range]

/-! ### Geometry lemmas about the dispersion cone -/

lemma half_angle_eq (p : SimParams) : moa_radian p / 2 = p.moa * (Real.pi / 21600) := by
  simp only [moa_radian, radians]
  ring

lemma max_radius_eq_zero (p : SimParams) (h : p.moa = 0 ∨ p.distance = 0) :
    max_radius p = 0 := by
  rcases h with h | h
  · simp [max_radius, moa_radian, radians, h]
  · simp [max_radius, h]

lemma shot_radius_of_max_zero (p : SimParams) (h : max_radius p = 0) (u : ℝ) :
    shot_radius p u = 0 := by
  simp [shot_radius, uniform, h]

lemma half_angle_nonneg (p : SimParams) (h0 : 0 ≤ p.moa) : 0 ≤ moa_radian p / 2 := by
  rw [half_angle_eq]
  positivity

lemma half_angle_le_pi_div_two (p : SimParams) (h1 : p.moa ≤ 10800) :
    moa_radian p / 2 ≤ Real.pi / 2 := by
  rw [half_angle_eq]
  have hpi := Real.pi_pos
  nlinarith

lemma max_radius_nonneg (p : SimParams) (hd : 0 ≤ p.distance) (h0 : 0 ≤ p.moa)
    (h1 : p.moa ≤ 10800) : 0 ≤ max_radius p := by
  have hs : 0 ≤ Real.sin (moa_radian p / 2) := by
    apply Real.sin_nonneg_of_nonneg_of_le_pi (half_angle_nonneg p h0)
    have := half_angle_le_pi_div_two p h1
    have hpi := Real.pi_pos
    linarith
  exact mul_nonneg hd hs

lemma max_radius_mono (p₁ p₂ : SimParams) (hd : p₁.distance = p₂.distance)
    (hdist : 0 ≤ p₁.distance) (h0 : 0 ≤ p₁.moa) (hm : p₁.moa ≤ p₂.moa)
    (h1 : p₂.moa ≤ 10800) : max_radius p₁ ≤ max_radius p₂ := by
  have hs : Real.sin (moa_radian p₁ / 2) ≤ Real.sin (moa_radian p₂ / 2) := by
    apply Real.sin_le_sin_of_le_of_le_pi_div_two
    · have := half_angle_nonneg p₁ h0
      have hpi := Real.pi_pos
      linarith
    · exact half_angle_le_pi_div_two p₂ h1
    · rw [half_angle_eq, half_angle_eq]
      have hpi := Real.pi_pos
      nlinarith
  rw [max_radius, max_radius, ← hd]
  exact mul_le_mul_of_nonneg_left hs hdist

/-! ### Probability lemmas -/

lemma hitProbability_nonneg (p : SimParams) (rng : ℕ → ℝ) (N cap : ℕ) :
    0 ≤ hitProbability p rng N cap :=
  div_nonneg (Nat.cast_nonneg _) (Nat.cast_nonneg _)

lemma hitProbability_le_one (p : SimParams) (rng : ℕ → ℝ) (N cap : ℕ) :
    hitProbability p rng N cap ≤ 1 := by
  rcases Nat.eq_zero_or_pos N with h | h
  · simp [hitProbability, h]
  · rw [hitProbability, div_le_one (by exact_mod_cast h)]
    exact_mod_cast sim_loop_hits_le p rng cap N

lemma hitProbability_le_of_hits_le (p₁ p₂ : SimParams) (rng₁ rng₂ : ℕ → ℝ)
    (N cap₁ cap₂ : ℕ)
    (h : (sim_loop p₂ rng₂ cap₂ N).hits ≤ (sim_loop p₁ rng₁ cap₁ N).hits) :
    hitProbability p₂ rng₂ N cap₂ ≤ hitProbability p₁ rng₁ N cap₁ := by
  rcases Nat.eq_zero_or_pos N with h0 | h0
  · simp [hitProbability, h0]
  · have hNpos : (0:ℝ) < N := by exact_mod_cast h0
    rw [hitProbability, hitProbability, div_le_div_iff_of_pos_right hNpos]
    exact_mod_cast h

/-! ### Claim theorems -/

/-- C1: for every run with `N` draws, the reported hit probability equals
`hitCount / totalShots`, where `hitCount` is the number of draws classified
as hits; it is 0 when no draw is a hit, 1 when every draw is a hit, and it
always lies in `[0, 1]`. -/
theorem C1_hit_probability_ratio (p : SimParams) (rng : ℕ → ℝ) (N cap : ℕ)
    (hN : 1 ≤ N) :
    hitProbability p rng N cap = ((simulate_shots p rng N cap).hits : ℝ) / N ∧
    (simulate_shots p rng N cap).hits = (first_pts p rng N).countP (hitb p) ∧
    0 ≤ hitProbability p rng N cap ∧
    hitProbability p rng N cap ≤ 1 ∧
    ((simulate_shots p rng N cap).hits = 0 → hitProbability p rng N cap = 0) ∧
    ((simulate_shots p rng N cap).hits = N → hitProbability p rng N cap = 1) := by
  have hNpos : (0:ℝ) < N := by exact_mod_cast hN
  refine ⟨rfl, (sim_loop_spec p rng cap N).1, hitProbability_nonneg p rng N cap,
    hitProbability_le_one p rng N cap, ?_, ?_⟩
  · intro h
    simp [hitProbability, h]
  · intro h
    rw [hitProbability, h]
    exact div_self (ne_of_gt hNpos)

/-- Witness for C1 at a concrete run: `N = 2` draws, display cap 1, zero
dispersion, all unit draws 0. -/
theorem C1_witness :
    1 ≤ 2 ∧
    (hitProbability ⟨0, 1, 0⟩ (fun _ => 0) 2 1
        = ((simulate_shots ⟨0, 1, 0⟩ (fun _ => 0) 2 1).hits : ℝ) / 2 ∧
      (simulate_shots ⟨0, 1, 0⟩ (fun _ => 0) 2 1).hits
        = (first_pts ⟨0, 1, 0⟩ (fun _ => 0) 2).countP (hitb ⟨0, 1, 0⟩) ∧
      0 ≤ hitProbability ⟨0, 1, 0⟩ (fun _ => 0) 2 1 ∧
      hitProbability ⟨0, 1, 0⟩ (fun _ => 0) 2 1 ≤ 1 ∧
      ((simulate_shots ⟨0, 1, 0⟩ (fun _ => 0) 2 1).hits = 0 →
        hitProbability ⟨0, 1, 0⟩ (fun _ => 0) 2 1 = 0) ∧
      ((simulate_shots ⟨0, 1, 0⟩ (fun _ => 0) 2 1).hits = 2 →
        hitProbability ⟨0, 1, 0⟩ (fun _ => 0) 2 1 = 1)) :=
  ⟨by decide, C1_hit_probability_ratio ⟨0, 1, 0⟩ (fun _ => 0) 2 1 (by decide)⟩

/-- C2: the per-shot sampling algorithm is exactly the spec's:
`maxRadiusMeters = distanceMeters * sin(radians(dispersionMOA / 60) / 2)`,
`radius` uniform on `[0, maxRadiusMeters]`, `angle` uniform on `[0, 2π)`,
and the landing point is `(radius·cos(angle), radius·sin(angle))`. -/
theorem C2_sampling_algorithm (p : SimParams) (u₁ u₂ : ℝ) :
    spec_halfAngleRadians p = radians (p.moa / 60) / 2 ∧
    max_radius p = spec_maxRadiusMeters p ∧
    shot_radius p u₁ = uniform 0 (spec_maxRadiusMeters p) u₁ ∧
    shot_angle u₂ = uniform 0 (2 * Real.pi) u₂ ∧
    (shot_x p u₁ u₂, shot_y p u₁ u₂) = spec_shot p u₁ u₂ :=
  ⟨rfl, rfl, rfl, rfl, rfl⟩

/-- C3: a shot `(x, y)` is a hit iff `sqrt(x² + y²) ≤ targetRadius` with
`targetRadius = targetDiameterMeters / 2`; a shot exactly at distance
`targetRadius` from center is a hit (inclusive boundary). -/
theorem C3_hit_boundary_inclusive (p : SimParams) (x y : ℝ) :
    (is_hit p x y ↔ Real.sqrt (x ^ 2 + y ^ 2) ≤ p.target_size / 2) ∧
    (Real.sqrt (x ^ 2 + y ^ 2) = target_radius p → is_hit p x y) := by
  constructor
  · rw [is_hit, target_radius]
  · intro h
    rw [is_hit, h]

/-- Witness for C3 at the boundary: target diameter 1, landing point
`(1/2, 0)` lies exactly at distance `targetRadius = 1/2` and is a hit. -/
theorem C3_witness :
    Real.sqrt ((1/2 : ℝ) ^ 2 + (0 : ℝ) ^ 2) = target_radius ⟨1, 1, 1⟩ ∧
    is_hit ⟨1, 1, 1⟩ (1/2) 0 := by
  have h : Real.sqrt ((1/2 : ℝ) ^ 2 + (0 : ℝ) ^ 2) = target_radius ⟨1, 1, 1⟩ := by
    have h14 : ((1:ℝ)/2) ^ 2 + (0 : ℝ) ^ 2 = (1/2) ^ 2 := by norm_num
    rw [h14, Real.sqrt_sq (by norm_num : (0:ℝ) ≤ 1/2), target_radius]
  exact ⟨h, (C3_hit_boundary_inclusive ⟨1, 1, 1⟩ (1/2) 0).2 h⟩

/-- C9: two runs with identical parameters and identical draw sequences
produce identical hit probabilities and identical displayed hit and miss
point sequences. -/
theorem C9_determinism (p₁ p₂ : SimParams) (rng₁ rng₂ : ℕ → ℝ)
    (N₁ N₂ cap₁ cap₂ : ℕ)
    (hp : p₁ = p₂) (hr : rng₁ = rng₂) (hN : N₁ = N₂) (hcap : cap₁ = cap₂) :
    hitProbability p₁ rng₁ N₁ cap₁ = hitProbability p₂ rng₂ N₂ cap₂ ∧
    (simulate_shots p₁ rng₁ N₁ cap₁).hits = (simulate_shots p₂ rng₂ N₂ cap₂).hits ∧
    (simulate_shots p₁ rng₁ N₁ cap₁).hits_x = (simulate_shots p₂ rng₂ N₂ cap₂).hits_x ∧
    (simulate_shots p₁ rng₁ N₁ cap₁).hits_y = (simulate_shots p₂ rng₂ N₂ cap₂).hits_y ∧
    (simulate_shots p₁ rng₁ N₁ cap₁).misses_x = (simulate_shots p₂ rng₂ N₂ cap₂).misses_x ∧
    (simulate_shots p₁ rng₁ N₁ cap₁).misses_y = (simulate_shots p₂ rng₂ N₂ cap₂).misses_y := by
  subst hp hr hN hcap
  exact ⟨rfl, rfl, rfl, rfl, rfl, rfl⟩

/-- Witness for C9 at a concrete pair of runs with equal inputs. -/
theorem C9_witness :
    hitProbability ⟨1000, 3/10, 4⟩ (fun _ => 1/2) 3 2
      = hitProbability ⟨1000, 3/10, 4⟩ (fun _ => 1/2) 3 2 ∧
    (simulate_shots ⟨1000, 3/10, 4⟩ (fun _ => 1/2) 3 2).hits
      = (simulate_shots ⟨1000, 3/10, 4⟩ (fun _ => 1/2) 3 2).hits ∧
    (simulate_shots ⟨1000, 3/10, 4⟩ (fun _ => 1/2) 3 2).hits_x
      = (simulate_shots ⟨1000, 3/10, 4⟩ (fun _ => 1/2) 3 2).hits_x ∧
    (simulate_shots ⟨1000, 3/10, 4⟩ (fun _ => 1/2) 3 2).hits_y
      = (simulate_shots ⟨1000, 3/10, 4⟩ (fun _ => 1/2) 3 2).hits_y ∧
    (simulate_shots ⟨1000, 3/10, 4⟩ (fun _ => 1/2) 3 2).misses_x
      = (simulate_shots ⟨1000, 3/10, 4⟩ (fun _ => 1/2) 3 2).misses_x ∧
    (simulate_shots ⟨1000, 3/10, 4⟩ (fun _ => 1/2) 3 2).misses_y
      = (simulate_shots ⟨1000, 3/10, 4⟩ (fun _ => 1/2) 3 2).misses_y :=
  C9_determinism ⟨1000, 3/10, 4⟩ ⟨1000, 3/10, 4⟩ (fun _ => 1/2) (fun _ => 1/2)
    3 3 2 2 rfl rfl rfl rfl

lemma simulate_shots_def (p : SimParams) (rng : ℕ → ℝ) (N cap : ℕ) :
    simulate_shots p rng N cap = sim_loop p rng cap N := rfl

/-- C4: for every run, the displayed lists hold exactly
`min(totalShots, displayCap)` points: the first `displayCap` draws of the
run, partitioned into hits and misses in draw order. -/
theorem C4_display_first_draws (p : SimParams) (rng : ℕ → ℝ) (N cap : ℕ) :
    (simulate_shots p rng N cap).hits_x.length
        + (simulate_shots p rng N cap).misses_x.length = min N cap ∧
    (simulate_shots p rng N cap).hits_x
      = ((first_pts p rng (min N cap)).filter (hitb p)).map Prod.fst ∧
    (simulate_shots p rng N cap).hits_y
      = ((first_pts p rng (min N cap)).filter (hitb p)).map Prod.snd ∧
    (simulate_shots p rng N cap).misses_x
      = ((first_pts p rng (min N cap)).filter (fun q => ! hitb p q)).map Prod.fst ∧
    (simulate_shots p rng N cap).misses_y
      = ((first_pts p rng (min N cap)).filter (fun q => ! hitb p q)).map Prod.snd := by
  obtain ⟨h1, h2, h3, h4, h5⟩ := sim_loop_spec p rng cap N
  rw [simulate_shots_def]
  refine ⟨?_, h2, h3, h4, h5⟩
  rw [h2, h4]
  simp only [List.length_map]
  rw [length_filter_add_length_filter_not]
  simp [first_pts]

lemma shot_pt_of_max_zero (p : SimParams) (rng : ℕ → ℝ) (h : max_radius p = 0)
    (i : ℕ) : shot_pt p rng i = (0, 0) := by
  simp [shot_pt, shot_x, shot_y, shot_radius_eq, h]

/-- C6: with `dispersionMOA = 0` or `distanceMeters = 0`, the dispersion
cone collapses: `maxRadiusMeters = 0`, the uniform draw over `[0, 0]`
yields 0, every shot lands at the origin, and (by the inclusive boundary)
`hitProbability = 1` for every nonnegative target diameter, zero included. -/
theorem C6_degenerate_cone (p : SimParams) (rng : ℕ → ℝ) (N cap : ℕ)
    (h0 : p.moa = 0 ∨ p.distance = 0) (htgt : 0 ≤ p.target_size) (hN : 1 ≤ N) :
    max_radius p = 0 ∧
    (∀ u : ℝ, shot_radius p u = 0) ∧
    (∀ i : ℕ, shot_pt p rng i = (0, 0)) ∧
    (simulate_shots p rng N cap).hits = N ∧
    hitProbability p rng N cap = 1 := by
  have hmr := max_radius_eq_zero p h0
  have hr : ∀ u : ℝ, shot_radius p u = 0 := shot_radius_of_max_zero p hmr
  have hpt : ∀ i : ℕ, shot_pt p rng i = (0, 0) := shot_pt_of_max_zero p rng hmr
  have hhit : ∀ i : ℕ, is_hit p (shot_pt p rng i).1 (shot_pt p rng i).2 := by
    intro i
    rw [hpt i]
    show is_hit p 0 0
    rw [is_hit, target_radius]
    have hs : Real.sqrt ((0:ℝ) ^ 2 + (0:ℝ) ^ 2) = 0 := by
      norm_num
    rw [hs]
    linarith
  have hall := sim_loop_hits_all p rng cap N hhit
  have hNpos : (0:ℝ) < N := by exact_mod_cast hN
  refine ⟨hmr, hr, hpt, by rw [simulate_shots_def, hall], ?_⟩
  rw [hitProbability, simulate_shots_def, hall]
  exact div_self (ne_of_gt hNpos)

/-- Witness for C6: zero distance, unit target, one draw. -/
theorem C6_witness :
    ((⟨0, 1, 0⟩ : SimParams).moa = 0 ∨ (⟨0, 1, 0⟩ : SimParams).distance = 0) ∧
    0 ≤ (⟨0, 1, 0⟩ : SimParams).target_size ∧ 1 ≤ 1 ∧
    (max_radius ⟨0, 1, 0⟩ = 0 ∧
      (∀ u : ℝ, shot_radius ⟨0, 1, 0⟩ u = 0) ∧
      (∀ i : ℕ, shot_pt ⟨0, 1, 0⟩ (fun _ => 0) i = (0, 0)) ∧
      (simulate_shots ⟨0, 1, 0⟩ (fun _ => 0) 1 1).hits = 1 ∧
      hitProbability ⟨0, 1, 0⟩ (fun _ => 0) 1 1 = 1) :=
  ⟨Or.inl rfl, by norm_num, le_refl 1,
    C6_degenerate_cone ⟨0, 1, 0⟩ (fun _ => 0) 1 1 (Or.inl rfl) (by norm_num) (le_refl 1)⟩

/-- C10: the hit classification depends only on the drawn radius, never on
the drawn angle: under exact real arithmetic a shot is a hit iff
`radius ≤ targetRadius` (radius nonnegative), for every angle draw; hence
the hit count is invariant under changing the angle draws. -/
theorem C10_angle_independence :
    (∀ (p : SimParams) (u₁ u₂ : ℝ), 0 ≤ shot_radius p u₁ →
      (is_hit p (shot_x p u₁ u₂) (shot_y p u₁ u₂) ↔
        shot_radius p u₁ ≤ target_radius p)) ∧
    (∀ (p : SimParams) (rng₁ rng₂ : ℕ → ℝ) (N cap : ℕ),
      (∀ i : ℕ, rng₁ (2 * i) = rng₂ (2 * i)) →
      (simulate_shots p rng₁ N cap).hits = (simulate_shots p rng₂ N cap).hits) := by
  constructor
  · intro p u₁ u₂ hr
    rw [is_hit_shot_iff, abs_of_nonneg hr]
  · intro p rng₁ rng₂ N cap hagree
    rw [simulate_shots_def, simulate_shots_def]
    apply sim_loop_hits_congr
    intro i
    simp only [shot_pt]
    rw [is_hit_shot_iff, is_hit_shot_iff, hagree i]

/-- Witness for C10 at zero dispersion and identical radius draws. -/
theorem C10_witness :
    (0 : ℝ) ≤ shot_radius ⟨0, 1, 0⟩ 0 ∧
    (is_hit ⟨0, 1, 0⟩ (shot_x ⟨0, 1, 0⟩ 0 0) (shot_y ⟨0, 1, 0⟩ 0 0) ↔
      shot_radius ⟨0, 1, 0⟩ 0 ≤ target_radius ⟨0, 1, 0⟩) ∧
    (simulate_shots ⟨0, 1, 0⟩ (fun _ => 0) 1 1).hits
      = (simulate_shots ⟨0, 1, 0⟩ (fun n => if n % 2 = 0 then 0 else 1) 1 1).hits := by
  have hr : (0:ℝ) ≤ shot_radius ⟨0, 1, 0⟩ 0 := by
    simp [shot_radius, uniform]
  refine ⟨hr, C10_angle_independence.1 ⟨0, 1, 0⟩ 0 0 hr, ?_⟩
  refine C10_angle_independence.2 ⟨0, 1, 0⟩ (fun _ => 0)
    (fun n => if n % 2 = 0 then 0 else 1) 1 1 (fun i => ?_)
  simp [Nat.mul_mod_right]

lemma max_radius_moa_10800 (d t : ℝ) : max_radius ⟨d, t, 10800⟩ = d := by
  have h : moa_radian ⟨d, t, 10800⟩ / 2 = Real.pi / 2 := by
    rw [half_angle_eq]
    show (10800 : ℝ) * (Real.pi / 21600) = Real.pi / 2
    ring
  rw [max_radius, h, Real.sin_pi_div_two, mul_one]

lemma max_radius_moa_21600 (d t : ℝ) : max_radius ⟨d, t, 21600⟩ = 0 := by
  have h : moa_radian ⟨d, t, 21600⟩ / 2 = Real.pi := by
    rw [half_angle_eq]
    show (21600 : ℝ) * (Real.pi / 21600) = Real.pi
    ring
  rw [max_radius, h, Real.sin_pi, mul_zero]

lemma shot_pt_congr (p₁ p₂ : SimParams) (rng : ℕ → ℝ)
    (h : max_radius p₁ = max_radius p₂) (i : ℕ) :
    shot_pt p₁ rng i = shot_pt p₂ rng i := by
  simp [shot_pt, shot_x, shot_y, shot_radius_eq, h]

/-- C5 counterexample: calling the simulator with all three parameters
negative does not signal any failure: the run draws its sample (the point
lands in the miss display list) and returns a complete result. -/
theorem C5_counterexample :
    (simulate_shots ⟨-1, -1, -1⟩ (fun _ => 0) 1 1).hits = 0 ∧
    (simulate_shots ⟨-1, -1, -1⟩ (fun _ => 0) 1 1).misses_x = [0] ∧
    (simulate_shots ⟨-1, -1, -1⟩ (fun _ => 0) 1 1).misses_y = [0] ∧
    hitProbability ⟨-1, -1, -1⟩ (fun _ => 0) 1 1 = 0 := by
  have hpt : shot_pt ⟨-1, -1, -1⟩ (fun _ => 0) 0 = (0, 0) := by
    simp [shot_pt, shot_x, shot_y, shot_radius_eq, uniform]
  have hmiss : ¬ is_hit ⟨-1, -1, -1⟩ (shot_pt ⟨-1, -1, -1⟩ (fun _ => 0) 0).1
      (shot_pt ⟨-1, -1, -1⟩ (fun _ => 0) 0).2 := by
    rw [hpt]
    show ¬ is_hit ⟨-1, -1, -1⟩ 0 0
    rw [is_hit, target_radius]
    norm_num
  have hstate : simulate_shots ⟨-1, -1, -1⟩ (fun _ => 0) 1 1 = ⟨0, [], [], [0], [0]⟩ := by
    rw [simulate_shots_def, show (1:ℕ) = 0 + 1 from rfl, sim_loop_succ, sim_loop_zero,
      sim_step_eq, if_neg hmiss, if_pos (by norm_num : (0:ℕ) < 1), hpt]
    simp
  refine ⟨by rw [hstate], by rw [hstate], by rw [hstate], ?_⟩
  rw [hitProbability, hstate]
  simp

/-- C5 amended: the simulator performs no parameter validation: for any
parameters, even with a negative distance, target diameter, or dispersion,
it runs to completion and returns a full result with the usual bounds
(`hits ≤ N`, display lists of total length `min N cap`, probability in
`[0, 1]`). -/
theorem C5_no_rejection (p : SimParams) (rng : ℕ → ℝ) (N cap : ℕ)
    (_h : p.distance < 0 ∨ p.target_size < 0 ∨ p.moa < 0) :
    (simulate_shots p rng N cap).hits ≤ N ∧
    (simulate_shots p rng N cap).hits_x.length
        + (simulate_shots p rng N cap).misses_x.length = min N cap ∧
    0 ≤ hitProbability p rng N cap ∧ hitProbability p rng N cap ≤ 1 := by
  refine ⟨sim_loop_hits_le p rng cap N, ?_, hitProbability_nonneg p rng N cap,
    hitProbability_le_one p rng N cap⟩
  obtain ⟨_, h2, _, h4, _⟩ := sim_loop_spec p rng cap N
  rw [simulate_shots_def, h2, h4]
  simp only [List.length_map]
  rw [length_filter_add_length_filter_not]
  simp [first_pts]

/-- Witness for the amended C5 at a negative distance. -/
theorem C5_witness :
    ((⟨-1, 1, 1⟩ : SimParams).distance < 0 ∨ (⟨-1, 1, 1⟩ : SimParams).target_size < 0 ∨
      (⟨-1, 1, 1⟩ : SimParams).moa < 0) ∧
    ((simulate_shots ⟨-1, 1, 1⟩ (fun _ => 0) 1 1).hits ≤ 1 ∧
      (simulate_shots ⟨-1, 1, 1⟩ (fun _ => 0) 1 1).hits_x.length
          + (simulate_shots ⟨-1, 1, 1⟩ (fun _ => 0) 1 1).misses_x.length = min 1 1 ∧
      0 ≤ hitProbability ⟨-1, 1, 1⟩ (fun _ => 0) 1 1 ∧
      hitProbability ⟨-1, 1, 1⟩ (fun _ => 0) 1 1 ≤ 1) :=
  ⟨Or.inl (by norm_num),
    C5_no_rejection ⟨-1, 1, 1⟩ (fun _ => 0) 1 1 (Or.inl (by norm_num))⟩

/-- C7 counterexample: with distance and target fixed and every draw `1/2`,
raising the dispersion from 10800 MOA (half-angle `π/2`, cone radius 1) to
21600 MOA (half-angle `π`, cone radius 0) raises the hit probability from
0 to 1, because `sin` is not monotone beyond `π/2`. -/
theorem C7_counterexample :
    (10800 : ℝ) < 21600 ∧
    hitProbability ⟨1, 1/2, 10800⟩ (fun _ => 1/2) 1 0 = 0 ∧
    hitProbability ⟨1, 1/2, 21600⟩ (fun _ => 1/2) 1 0 = 1 ∧
    hitProbability ⟨1, 1/2, 10800⟩ (fun _ => 1/2) 1 0
      < hitProbability ⟨1, 1/2, 21600⟩ (fun _ => 1/2) 1 0 := by
  have hmax1 : max_radius ⟨1, 1/2, 10800⟩ = 1 := max_radius_moa_10800 1 (1/2)
  have hang : shot_angle (1/2) = Real.pi := by
    rw [shot_angle, uniform]
    ring
  have hpt1 : shot_pt ⟨1, 1/2, 10800⟩ (fun _ => 1/2) 0 = (-(1/2), 0) := by
    simp only [shot_pt, shot_x, shot_y, shot_radius_eq, hmax1, hang]
    rw [Real.cos_pi, Real.sin_pi]
    norm_num
  have hmiss : ¬ is_hit ⟨1, 1/2, 10800⟩ (shot_pt ⟨1, 1/2, 10800⟩ (fun _ => 1/2) 0).1
      (shot_pt ⟨1, 1/2, 10800⟩ (fun _ => 1/2) 0).2 := by
    rw [hpt1]
    show ¬ is_hit ⟨1, 1/2, 10800⟩ (-(1/2)) 0
    rw [is_hit, target_radius]
    have hs : Real.sqrt ((-(1/2) : ℝ) ^ 2 + (0 : ℝ) ^ 2) = 1/2 := by
      rw [show ((-(1/2) : ℝ)) ^ 2 + (0 : ℝ) ^ 2 = (1/2 : ℝ) ^ 2 by norm_num,
        Real.sqrt_sq (by norm_num : (0:ℝ) ≤ 1/2)]
    rw [hs]
    norm_num
  have hrun1 : simulate_shots ⟨1, 1/2, 10800⟩ (fun _ => 1/2) 1 0 = ⟨0, [], [], [], []⟩ := by
    rw [simulate_shots_def, show (1:ℕ) = 0 + 1 from rfl, sim_loop_succ, sim_loop_zero,
      sim_step_eq, if_neg hmiss, if_neg (lt_irrefl 0)]
  have hmax2 : max_radius ⟨1, 1/2, 21600⟩ = 0 := max_radius_moa_21600 1 (1/2)
  have hpt2 : shot_pt ⟨1, 1/2, 21600⟩ (fun _ => 1/2) 0 = (0, 0) :=
    shot_pt_of_max_zero _ _ hmax2 0
  have hhit : is_hit ⟨1, 1/2, 21600⟩ (shot_pt ⟨1, 1/2, 21600⟩ (fun _ => 1/2) 0).1
      (shot_pt ⟨1, 1/2, 21600⟩ (fun _ => 1/2) 0).2 := by
    rw [hpt2]
    show is_hit ⟨1, 1/2, 21600⟩ 0 0
    rw [is_hit, target_radius]
    norm_num
  have hrun2 : simulate_shots ⟨1, 1/2, 21600⟩ (fun _ => 1/2) 1 0 = ⟨1, [], [], [], []⟩ := by
    rw [simulate_shots_def, show (1:ℕ) = 0 + 1 from rfl, sim_loop_succ, sim_loop_zero,
      sim_step_eq, if_pos hhit, if_neg (lt_irrefl 0)]
  have hp1 : hitProbability ⟨1, 1/2, 10800⟩ (fun _ => 1/2) 1 0 = 0 := by
    rw [hitProbability, hrun1]
    simp
  have hp2 : hitProbability ⟨1, 1/2, 21600⟩ (fun _ => 1/2) 1 0 = 1 := by
    rw [hitProbability, hrun2]
    norm_num
  refine ⟨by norm_num, hp1, hp2, ?_⟩
  rw [hp1, hp2]
  norm_num

/-- C7 amended: for a fixed draw sequence of nonnegative unit draws and a
nonnegative distance, increasing `dispersionMOA` never increases
`hitProbability` as long as the dispersion half-angle stays within
`[0, π/2]` (i.e. MOA at most 10800, which covers the UI range 0-5); and
increasing `targetDiameterMeters` (distance and MOA fixed) never decreases
`hitProbability`, unconditionally. -/
theorem C7_monotonicity :
    (∀ (p₁ p₂ : SimParams) (rng : ℕ → ℝ) (N cap : ℕ),
      p₁.distance = p₂.distance → p₁.target_size = p₂.target_size →
      0 ≤ p₁.distance → (∀ n : ℕ, 0 ≤ rng n) →
      0 ≤ p₁.moa → p₁.moa ≤ p₂.moa → p₂.moa ≤ 10800 →
      hitProbability p₂ rng N cap ≤ hitProbability p₁ rng N cap) ∧
    (∀ (p₁ p₂ : SimParams) (rng : ℕ → ℝ) (N cap : ℕ),
      p₁.distance = p₂.distance → p₁.moa = p₂.moa →
      p₁.target_size ≤ p₂.target_size →
      hitProbability p₁ rng N cap ≤ hitProbability p₂ rng N cap) := by
  constructor
  · intro p₁ p₂ rng N cap hd ht hdist hrng h0 hm h1
    have hmax1nn : 0 ≤ max_radius p₁ := max_radius_nonneg p₁ hdist h0 (le_trans hm h1)
    have hmono : max_radius p₁ ≤ max_radius p₂ := max_radius_mono p₁ p₂ hd hdist h0 hm h1
    have htr : target_radius p₁ = target_radius p₂ := by
      rw [target_radius, target_radius, ht]
    apply hitProbability_le_of_hits_le
    apply sim_loop_hits_mono
    intro i
    simp only [shot_pt]
    rw [is_hit_shot_iff, is_hit_shot_iff]
    intro hhit2
    have hu : 0 ≤ rng (2 * i) := hrng (2 * i)
    have hr1nn : 0 ≤ shot_radius p₁ (rng (2 * i)) := by
      rw [shot_radius_eq]
      exact mul_nonneg hmax1nn hu
    rw [abs_of_nonneg hr1nn, shot_radius_eq, htr]
    calc max_radius p₁ * rng (2 * i) ≤ max_radius p₂ * rng (2 * i) :=
          mul_le_mul_of_nonneg_right hmono hu
      _ ≤ |max_radius p₂ * rng (2 * i)| := le_abs_self _
      _ = |shot_radius p₂ (rng (2 * i))| := by rw [shot_radius_eq]
      _ ≤ target_radius p₂ := hhit2
  · intro p₁ p₂ rng N cap hd hm ht
    have hmr : max_radius p₁ = max_radius p₂ := by
      rw [max_radius, max_radius, hd, moa_radian, moa_radian, hm]
    apply hitProbability_le_of_hits_le
    apply sim_loop_hits_mono
    intro i
    rw [← shot_pt_congr p₁ p₂ rng hmr i]
    rw [is_hit, is_hit, target_radius, target_radius]
    intro h1
    linarith


/-- Witness for the amended C7 at concrete runs within the UI range. -/
theorem C7_witness :
    hitProbability ⟨1, 1/2, 2⟩ (fun _ => 1/2) 1 0
      ≤ hitProbability ⟨1, 1/2, 1⟩ (fun _ => 1/2) 1 0 ∧
    hitProbability ⟨1, 1/2, 1⟩ (fun _ => 1/2) 1 0
      ≤ hitProbability ⟨1, 1, 1⟩ (fun _ => 1/2) 1 0 :=
  ⟨C7_monotonicity.1 ⟨1, 1/2, 1⟩ ⟨1, 1/2, 2⟩ (fun _ => 1/2) 1 0 rfl rfl
      (by norm_num) (fun n => by norm_num) (by norm_num) (by norm_num) (by norm_num),
    C7_monotonicity.2 ⟨1, 1/2, 1⟩ ⟨1, 1, 1⟩ (fun _ => 1/2) 1 0 rfl rfl (by norm_num)⟩

/-- The hit event is the interval `[0, min 1 (targetRadius / maxRadius)]`
of radius draws, so its volume — the per-shot hit probability — is
`min 1 (targetRadius / maxRadius)`, NOT the area-uniform value
`min 1 ((targetRadius / maxRadius)²)`: the code draws the radius uniformly,
not the landing-point area. -/
lemma hit_event_volume (p : SimParams) (u₂ : ℝ) (hmax : 0 < max_radius p)
    (htr : 0 ≤ target_radius p) :
    MeasureTheory.volume (hit_event p u₂)
      = ENNReal.ofReal (min 1 (target_radius p / max_radius p)) := by
  have hset : hit_event p u₂
      = Set.Icc 0 (min 1 (target_radius p / max_radius p)) := by
    ext u
    simp only [hit_event, Set.mem_setOf_eq, Set.mem_Icc, le_min_iff]
    constructor
    · rintro ⟨⟨h0, h1⟩, hhit⟩
      rw [is_hit_shot_iff] at hhit
      have hrnn : 0 ≤ shot_radius p u := by
        rw [shot_radius_eq]
        exact mul_nonneg hmax.le h0
      rw [abs_of_nonneg hrnn, shot_radius_eq] at hhit
      refine ⟨h0, h1, ?_⟩
      rw [le_div_iff hmax]
      linarith [hhit]
    · rintro ⟨h0, h1, h2⟩
      refine ⟨⟨h0, h1⟩, ?_⟩
      rw [is_hit_shot_iff]
      have hrnn : 0 ≤ shot_radius p u := by
        rw [shot_radius_eq]
        exact mul_nonneg hmax.le h0
      rw [abs_of_nonneg hrnn, shot_radius_eq]
      rw [le_div_iff hmax] at h2
      linarith [h2]
  rw [hset, Real.volume_Icc, sub_zero]

/-- C8 amended: when `maxRadiusMeters > 0` (and the target radius is
nonnegative), the per-shot hit probability — the volume of the hit event
over a uniform radius draw, for every fixed angle draw — equals
`min 1 (targetRadius / maxRadiusMeters)`.  This, not the spec's
area-uniform closed form `min 1 ((targetRadius / maxRadiusMeters)²)`, is
the value the empirical hit rate of the code converges to. -/
theorem C8_per_shot_probability (p : SimParams) (u₂ : ℝ)
    (hmax : 0 < max_radius p) (htr : 0 ≤ target_radius p) :
    MeasureTheory.volume (hit_event p u₂)
      = ENNReal.ofReal (min 1 (target_radius p / max_radius p)) :=
  hit_event_volume p u₂ hmax htr

/-- C8 counterexample: with `maxRadiusMeters = 1` and `targetRadius = 1/2`
the per-shot hit probability is `1/2`, while the claimed closed form
`min 1 ((targetRadius / maxRadiusMeters)²)` is `1/4`; the two differ, so
the empirical rate cannot converge to the claimed value. -/
theorem C8_counterexample :
    MeasureTheory.volume (hit_event ⟨1, 1, 10800⟩ 0) = ENNReal.ofReal (1/2) ∧
    min (1:ℝ) ((target_radius ⟨1, 1, 10800⟩ / max_radius ⟨1, 1, 10800⟩) ^ 2) = 1/4 ∧
    ENNReal.ofReal ((1:ℝ)/2) ≠ ENNReal.ofReal ((1:ℝ)/4) := by
  have hmax : max_radius ⟨1, 1, 10800⟩ = 1 := max_radius_moa_10800 1 1
  have htr : target_radius ⟨1, 1, 10800⟩ = 1/2 := by
    rw [target_radius]
  refine ⟨?_, ?_, ?_⟩
  · rw [hit_event_volume ⟨1, 1, 10800⟩ 0 (by rw [hmax]; norm_num) (by rw [htr]; norm_num)]
    rw [hmax, htr]
    norm_num
  · rw [hmax, htr]
    norm_num
  · intro h
    have h2 := (ENNReal.ofReal_eq_ofReal_iff (by norm_num) (by norm_num)).mp h
    norm_num at h2

/-- Witness for the amended C8 at the same concrete parameters. -/
theorem C8_witness :
    0 < max_radius ⟨1, 1, 10800⟩ ∧ 0 ≤ target_radius ⟨1, 1, 10800⟩ ∧
    MeasureTheory.volume (hit_event ⟨1, 1, 10800⟩ 0)
      = ENNReal.ofReal (min 1 (target_radius ⟨1, 1, 10800⟩ / max_radius ⟨1, 1, 10800⟩)) :=
  ⟨by rw [max_radius_moa_10800]; norm_num,
    by rw [target_radius]; norm_num,
    C8_per_shot_probability ⟨1, 1, 10800⟩ 0
      (by rw [max_radius_moa_10800]; norm_num)
      (by rw [target_radius]; norm_num)⟩
